import Mathlib

/-!
Verification of the `akxr-bots` update-tracker scripts
(`update-tracker/final-year/main.py`, `update-tracker/final-year/backfill.py`).

Shallow embedding conventions:
* Local civil time in the fixed zone `Asia/Kolkata` is modelled by `CivilTime`:
  an abstract calendar-day index (`Int`, days since an arbitrary epoch) plus
  hour/minute/second.  The zone has a fixed UTC offset, so converting a civil
  instant to an epoch timestamp is an order-preserving affine map; message
  timestamps are therefore modelled directly in local-time seconds (`toSecs`).
* `strftime` date formatting is injective in the calendar day, so the functions
  `today_label` / `today_date_str` return the calendar-day index that the
  source would format (as `"%-d %b"` and `"%Y-%m-%d"` respectively).
* A Zulip API response is a `Response` record: the `result`/`msg` fields that
  `dict.get` reads (absent keys are `none`) and the `messages` list.
* Python `dict` string maps are association lists with in-place replacement
  (`dictInsert`), Python `set` accumulation is `setInsert`; lookups use
  `List.lookup` (first match), which on the unique-key lists built here agrees
  with Python dict lookup.
* Network sends are modelled by a success oracle `sendOk : String → Bool`
  giving the outcome the chat platform reports for a DM to a given username.
-/

/-- Python whitespace characters removed by `str.strip()` (ASCII subset). -/
def isPySpace (c : Char) : Bool :=
  c = ' ' || c = '\t' || c = '\n' || c = '\x0b' || c = '\x0c' || c = '\r'

/-- Model of Python `str.strip()` on a character list. -/
def pyStrip (cs : List Char) : List Char :=
  ((cs.dropWhile isPySpace).reverse.dropWhile isPySpace).reverse

/-- Scan forward to the first closing angle bracket, returning the remainder
after it (the continuation of a regex match of `[^>]*>`). -/
def tagClose : List Char → Option (List Char)
  | [] => none
  | c :: rest => if c = '>' then some rest else tagClose rest

/-- Given the characters after an opening angle bracket, attempt the regex
match `[^>]+>`: at least one character that is not a closing bracket, then a
closing bracket.  Returns the remainder after the match, if any. -/
def matchTag : List Char → Option (List Char)
  | [] => none
  | c :: rest => if c = '>' then none else tagClose rest

theorem tagClose_length {cs r : List Char} (h : tagClose cs = some r) :
    r.length < cs.length := by
  induction cs with
  | nil => simp [tagClose] at h
  | cons c rest ih =>
    simp only [tagClose] at h
    split at h
    · cases h; simp
    · exact Nat.lt_trans (ih h) (by simp)

theorem matchTag_length {cs r : List Char} (h : matchTag cs = some r) :
    r.length < cs.length := by
  cases cs with
  | nil => simp [matchTag] at h
  | cons c rest =>
    simp only [matchTag] at h
    split at h
    · cases h
    · exact Nat.lt_trans (tagClose_length h) (by simp)

/-- Model of `re.sub(r"<[^>]+>", "", text)`: remove every non-overlapping
leftmost match of an angle-bracket tag. -/
def stripTags : List Char → List Char
  | [] => []
  | c :: rest =>
    if c = '<' then
      match h : matchTag rest with
      | some r => stripTags r
      | none => c :: stripTags rest
    else c :: stripTags rest
termination_by cs => cs.length
decreasing_by
  · exact Nat.lt_succ_of_lt (matchTag_length h)
  · simp
  · simp

/-- `strip_html` from `main.py`: remove HTML tags, then strip whitespace. -/
def strip_html (s : String) : String :=
  ⟨pyStrip (stripTags s.data)⟩

/-- A civil date-time in the fixed configured time zone: abstract calendar-day
index plus time of day. -/
structure CivilTime where
  day : Int
  hour : Nat
  minute : Nat
  second : Nat
  deriving DecidableEq, Repr

/-- A civil time with a meaningful time-of-day part. -/
def CivilTime.Valid (t : CivilTime) : Prop :=
  t.hour ≤ 23 ∧ t.minute ≤ 59 ∧ t.second ≤ 59

instance (t : CivilTime) : Decidable t.Valid := by
  unfold CivilTime.Valid
  infer_instance

/-- Local-time seconds of a civil instant (fixed-offset zone, so this is an
order-preserving rescaling of the epoch timestamp). -/
def toSecs (t : CivilTime) : Int :=
  86400 * t.day + 3600 * (t.hour : Int) + 60 * (t.minute : Int) + (t.second : Int)

/-- `today_label` from `main.py`: the calendar day that the human-readable
label is formatted from — the previous day when the hour is before 5. -/
def today_label (now : CivilTime) : Int :=
  if now.hour < 5 then now.day - 1 else now.day

/-- `today_date_str` from `main.py`: the calendar day the ISO `YYYY-MM-DD`
key is formatted from — the previous day when the hour is before 5. -/
def today_date_str (now : CivilTime) : Int :=
  if now.hour < 5 then now.day - 1 else now.day

/-- The window start computed inside the message fetchers:
`now.replace(hour=5, minute=0, second=0)`, moved one day back when the
current hour is before 5. -/
def start_of_day (now : CivilTime) : CivilTime :=
  if now.hour < 5 then ⟨now.day - 1, 5, 0, 0⟩ else ⟨now.day, 5, 0, 0⟩

/-- The `start_timestamp` the fetchers filter against. -/
def startTs (now : CivilTime) : Int :=
  toSecs (start_of_day now)

/-- One Zulip message, with the fields the scripts read.  `dict.get` defaults
(`0` timestamp, `""` sender, `"UNKNOWN"` full name) are inlined into the
field values by the producer. -/
structure Msg where
  id : Nat
  sender_email : String
  sender_full_name : String
  timestamp : Int
  content : String
  deriving DecidableEq, Repr

/-- A Zulip API response as the scripts consume it. -/
structure Response where
  result : Option String
  msg : Option String
  messages : List Msg
  deriving DecidableEq, Repr

/-- Python `str.lower()` restricted to ASCII letters (the usernames and
emails the scripts lowercase are ASCII). -/
def lowerChar (c : Char) : Char :=
  if 65 ≤ c.toNat ∧ c.toNat ≤ 90 then Char.ofNat (c.toNat + 32) else c

/-- Python `str.lower()` on a string. -/
def pyLower (s : String) : String :=
  ⟨s.data.map lowerChar⟩

/-- Python `str.upper()` restricted to ASCII letters. -/
def upperChar (c : Char) : Char :=
  if 97 ≤ c.toNat ∧ c.toNat ≤ 122 then Char.ofNat (c.toNat - 32) else c

/-- Python `str.upper()` on a string. -/
def pyUpper (s : String) : String :=
  ⟨s.data.map upperChar⟩

/-- Python `set.add`: append the element unless already present (membership
is what the scripts use the set for). -/
def setInsert (s : List String) (u : String) : List String :=
  if u ∈ s then s else s ++ [u]

/-- Python `dict` assignment `m[k] = v`: replace the existing binding in
place, or append a new one. -/
def dictInsert (m : List (String × String)) (k v : String) :
    List (String × String) :=
  if m.any (fun p => p.1 = k) then
    m.map (fun p => if p.1 = k then (k, v) else p)
  else
    m ++ [(k, v)]

/-- `get_users_who_posted_today` from `main.py`, applied to the response its
single API call produced: on failure return the empty set, otherwise collect
the lowercased sender emails of the in-window messages, skipping empty ones. -/
def get_users_who_posted_today (resp : Response) (now : CivilTime) :
    List String :=
  if resp.result ≠ some "success" then []
  else
    resp.messages.foldl
      (fun acc m =>
        if startTs now ≤ m.timestamp then
          let username := pyLower m.sender_email
          if username ≠ "" then setInsert acc username else acc
        else acc)
      []

/-- `fetch_batch_updates` from `main.py`, applied to the response of its
single API call: on failure return the empty mapping, otherwise fold the
messages in API order, the stripped content of each in-window message
overwriting the sender's previous entry. -/
def fetch_batch_updates (resp : Response) (now : CivilTime) :
    List (String × String) :=
  if resp.result ≠ some "success" then []
  else
    resp.messages.foldl
      (fun acc m =>
        if startTs now ≤ m.timestamp then
          dictInsert acc m.sender_full_name (strip_html m.content)
        else acc)
      []

/-- One roster member (`students` entry of a batch in `roster.json`). -/
structure Student where
  username : String
  display_name : String
  deriving DecidableEq, Repr

/-- `get_dmd_users_for_date` from `main.py`: from the `dm_state` grid, skip
the header row and collect the lowercased username of every row whose first
two cells equal the given date and batch. -/
def get_dmd_users_for_date (rows : List (List String)) (batch date : String) :
    List String :=
  (rows.drop 1).foldl
    (fun acc row =>
      if 3 ≤ row.length ∧ row.getD 0 "" = date ∧ row.getD 1 "" = batch then
        setInsert acc (pyLower (row.getD 2 ""))
      else acc)
    []

/-- The classification loop of `process_batch` (`main.py` lines 291–300):
fold over the roster, counting posters and collecting the DM and mention
buckets in roster order. -/
def classifyStudents (students : List Student)
    (posted dmd : List String) : Nat × List Student × List Student :=
  students.foldl
    (fun acc s =>
      let username := pyLower s.username
      if username ∈ posted then (acc.1 + 1, acc.2.1, acc.2.2)
      else if username ∈ dmd then (acc.1, acc.2.1, acc.2.2 ++ [s])
      else (acc.1, acc.2.1 ++ [s], acc.2.2))
    (0, [], [])

/-- The row `record_dm_sent` appends to the `dm_state` tab (the timestamp
column is not modelled; the log is used only as a (date, batch, username)
membership set). -/
def record_dm_sent (batch date username : String) : String × String × String :=
  (date, batch, pyLower username)

/-- `send_dm` from `main.py` with `TEST_MODE = False`: the outcome is what
the chat platform reports for the DM to that username. -/
def send_dm (sendOk : String → Bool) (username : String) : Bool :=
  sendOk username

/-- The mention token `@**display_name**` built for one student. -/
def mentionToken (s : Student) : String :=
  "@**" ++ s.display_name ++ "**"

/-- Python `" ".join`. -/
def joinSpace : List String → String
  | [] => ""
  | [a] => a
  | a :: b :: rest => a ++ " " ++ joinSpace (b :: rest)

/-- The default `MENTION_MESSAGE` configuration value. -/
def MENTION_MESSAGE : String :=
  "Reminder: Please post your daily update."

/-- `send_channel_mention` from `main.py` with `TEST_MODE = False`: the list
of channel messages it posts — none for an empty student list, otherwise the
single aggregated mention message. -/
def send_channel_mention (students : List Student) : List String :=
  if students = [] then []
  else [joinSpace (students.map mentionToken) ++ " " ++ MENTION_MESSAGE]

/-- The DM loop of `process_batch` (lines 310–313): walk the DM bucket,
recording every username attempted and appending a `dm_state` row for each
send the platform reports as successful. -/
def dmLoop (sendOk : String → Bool) (batch date : String)
    (toDm : List Student) : List String × List (String × String × String) :=
  toDm.foldl
    (fun acc s =>
      if send_dm sendOk s.username then
        (acc.1 ++ [s.username], acc.2 ++ [record_dm_sent batch date s.username])
      else (acc.1 ++ [s.username], acc.2))
    ([], [])

/-- Pad a row with empty cells on the right up to length `n`. -/
def padTo (l : List String) (n : Nat) : List String :=
  l ++ List.replicate (n - l.length) ""

/-- Write value `v` into 1-based position `c` of a row, growing the row with
empty cells as the spreadsheet service does. -/
def setCell (row : List String) (c : Nat) (v : String) : List String :=
  (padTo row c).set (c - 1) v

/-- `worksheet.update_cell(r, c, v)` on the grid of cell values: grow the
grid to `r` rows if needed, then write position `c` of row `r` (1-based). -/
def updateCell (g : List (List String)) (r c : Nat) (v : String) :
    List (List String) :=
  let g2 := g ++ List.replicate (r - g.length) ([] : List String)
  g2.set (r - 1) (setCell (g2.getD (r - 1) []) c v)

/-- `worksheet.insert_cols([[]], col=1)`: insert one empty column before the
first, shifting every row right. -/
def insertEmptyCol (g : List (List String)) : List (List String) :=
  g.map (fun row => "" :: row)

/-- `worksheet.row_values(1)`: the first row of the grid. -/
def rowValues1 (g : List (List String)) : List String :=
  g.headD []

/-- `worksheet.col_values(1)`: the first cell of every row. -/
def colValues1 (g : List (List String)) : List String :=
  g.map (fun row => row.headD "")

/-- Stand-in for `strftime("%-d %b")`, which is injective in the calendar
day; the label is modelled as the printed day index. -/
def formatDayLabel (d : Int) : String :=
  toString d

/-- One step of the header loop of `update_batch_sheet`: if the uppercased
user is not yet a header column, write it into the cell after the current
last header column and append it to the tracked header lists.  The
accumulator is (grid, header, header_upper). -/
def headerStep (acc : List (List String) × List String × List String)
    (user : String) : List (List String) × List String × List String :=
  let u := pyUpper user
  if u ∈ acc.2.2 then acc
  else (updateCell acc.1 1 (acc.2.1.length + 1) u, acc.2.1 ++ [u], acc.2.2 ++ [u])

/-- `update_batch_sheet` from `main.py`: record the fetched updates for one
batch into its worksheet grid.  Empty updates: no write at all.  Otherwise:
seed an empty grid with the `DATE` header, prepend a `DATE` column if the
first header cell is not `DATE`, append a header column for every new
participant, locate or append the row labelled with today's label, and
overwrite each participant's cell for that row.  The bold-formatting call
touches no cell values and is not modelled. -/
def seedIfEmpty (g : List (List String)) : List (List String) :=
  if g = [] then updateCell g 1 1 "DATE" else g

/-- The header fix-up of `update_batch_sheet`: when the first header cell is
missing or is not `DATE` (up to case), insert an empty first column and write
`DATE` into cell (1,1).  Returns the grid together with the local `header`
list the source tracks (`["DATE"] + header` after a fix). -/
def fixDateHeader (g : List (List String)) :
    List (List String) × List String :=
  let header0 := rowValues1 g
  if header0 = [] ∨ pyUpper (header0.headD "") ≠ "DATE" then
    (updateCell (insertEmptyCol g) 1 1 "DATE", "DATE" :: header0)
  else (g, header0)

/-- The 1-based row index `update_batch_sheet` targets: the row whose first
cell equals today's label, or the row after the last `col_values(1)` entry. -/
def dateRowIdx (g : List (List String)) (todayLbl : String) : Nat :=
  if todayLbl ∈ colValues1 g then ((colValues1 g).indexOf todayLbl) + 1
  else (colValues1 g).length + 1

/-- Write today's label into column 1 of a fresh row when no existing row
carries it. -/
def ensureDateRow (g : List (List String)) (todayLbl : String) :
    List (List String) :=
  if todayLbl ∈ colValues1 g then g
  else updateCell g (dateRowIdx g todayLbl) 1 todayLbl

/-- The cell loop of `update_batch_sheet`: overwrite each participant's cell
in the date row, the column found by case-insensitive header lookup. -/
def writeCells (g : List (List String)) (rowIdx : Nat)
    (headerUpper : List String) (updates : List (String × String)) :
    List (List String) :=
  updates.foldl
    (fun gAcc p =>
      updateCell gAcc rowIdx ((headerUpper.indexOf (pyUpper p.1)) + 1) p.2)
    g

def update_batch_sheet (g : List (List String))
    (updates : List (String × String)) (todayLbl : String) :
    List (List String) :=
  if updates = [] then g
  else
    let fixed := fixDateHeader (seedIfEmpty g)
    let folded :=
      (updates.map Prod.fst).foldl headerStep
        (fixed.1, fixed.2, fixed.2.map pyUpper)
    writeCells (ensureDateRow folded.1 todayLbl)
      (dateRowIdx folded.1 todayLbl) folded.2.2 updates

/-- The observable effects of one `process_batch` call (`main.py`). -/
structure BatchResult where
  sheet : List (List String)
  postedCount : Nat
  toDm : List Student
  toMention : List Student
  dmAttempts : List String
  dmLog : List (String × String × String)
  mentionSent : List String
  deriving Repr

/-- `process_batch` from `main.py` with `TEST_MODE = False`: fetch the
posted-set and the content updates, record the updates into the batch
worksheet, read the already-reminded set for (date, batch) from the
`dm_state` grid, classify the roster, then run the hour-gated DM loop and
the hour-windowed public mention. -/
def process_batch (students : List Student) (batch_name today : String)
    (now : CivilTime) (postedResp updatesResp : Response)
    (dmRows : List (List String)) (sheet : List (List String))
    (sendOk : String → Bool) : BatchResult :=
  let current_hour := now.hour
  let posted_users := get_users_who_posted_today postedResp now
  let updates := fetch_batch_updates updatesResp now
  let sheet2 := update_batch_sheet sheet updates (formatDayLabel (today_label now))
  let already_dmd := get_dmd_users_for_date dmRows batch_name today
  let c := classifyStudents students posted_users already_dmd
  let dm := if current_hour = 19 then dmLoop sendOk batch_name today c.2.1
            else ([], [])
  let mentions :=
    if 19 ≤ current_hour ∧ current_hour ≤ 23 then
      if c.2.2 ≠ [] then send_channel_mention c.2.2 else []
    else []
  ⟨sheet2, c.1, c.2.1, c.2.2, dm.1, dm.2, mentions⟩

theorem classifyStudents_go (posted dmd : List String)
    (students : List Student) (a : Nat) (d m : List Student) :
    students.foldl
      (fun acc s =>
        let username := pyLower s.username
        if username ∈ posted then (acc.1 + 1, acc.2.1, acc.2.2)
        else if username ∈ dmd then (acc.1, acc.2.1, acc.2.2 ++ [s])
        else (acc.1, acc.2.1 ++ [s], acc.2.2))
      (a, d, m) =
      (a + (students.filter (fun s => decide (pyLower s.username ∈ posted))).length,
       d ++ students.filter
         (fun s => decide (pyLower s.username ∉ posted ∧ pyLower s.username ∉ dmd)),
       m ++ students.filter
         (fun s => decide (pyLower s.username ∉ posted ∧ pyLower s.username ∈ dmd))) := by
  induction students generalizing a d m with
  | nil => simp
  | cons s rest ih =>
    simp only [List.foldl_cons, List.filter_cons]
    by_cases h1 : pyLower s.username ∈ posted
    · simp [h1, ih, Nat.add_comm, Nat.add_assoc, Nat.add_left_comm]
    · by_cases h2 : pyLower s.username ∈ dmd
      · simp [h1, h2, ih]
      · simp [h1, h2, ih]

theorem classifyStudents_eq (students : List Student) (posted dmd : List String) :
    classifyStudents students posted dmd =
      ((students.filter (fun s => decide (pyLower s.username ∈ posted))).length,
       students.filter
         (fun s => decide (pyLower s.username ∉ posted ∧ pyLower s.username ∉ dmd)),
       students.filter
         (fun s => decide (pyLower s.username ∉ posted ∧ pyLower s.username ∈ dmd))) := by
  unfold classifyStudents
  rw [classifyStudents_go]
  simp

theorem process_batch_toDm (students : List Student) (batch_name today : String)
    (now : CivilTime) (postedResp updatesResp : Response)
    (dmRows : List (List String)) (sheet : List (List String))
    (sendOk : String → Bool) :
    (process_batch students batch_name today now postedResp updatesResp
        dmRows sheet sendOk).toDm =
      students.filter
        (fun s =>
          decide (pyLower s.username ∉ get_users_who_posted_today postedResp now ∧
            pyLower s.username ∉ get_dmd_users_for_date dmRows batch_name today)) := by
  simp [process_batch, classifyStudents_eq]

theorem process_batch_toMention (students : List Student)
    (batch_name today : String)
    (now : CivilTime) (postedResp updatesResp : Response)
    (dmRows : List (List String)) (sheet : List (List String))
    (sendOk : String → Bool) :
    (process_batch students batch_name today now postedResp updatesResp
        dmRows sheet sendOk).toMention =
      students.filter
        (fun s =>
          decide (pyLower s.username ∉ get_users_who_posted_today postedResp now ∧
            pyLower s.username ∈ get_dmd_users_for_date dmRows batch_name today)) := by
  simp [process_batch, classifyStudents_eq]

/-- C1: every roster member of a processed batch lands in exactly one of the
three buckets, with the precedence of `process_batch`: members whose
lowercased username is in the posted-set are only counted as posted (they
are in neither send bucket); otherwise members in the already-reminded set
for (date, group) go to the public-mention bucket and never the DM bucket;
all remaining members go to the DM bucket and never the mention bucket.
The posted tally counts exactly the members in the posted-set. -/
theorem classification_exactly_one_bucket (students : List Student)
    (batch_name today : String) (now : CivilTime)
    (postedResp updatesResp : Response)
    (dmRows : List (List String)) (sheet : List (List String))
    (sendOk : String → Bool) (s : Student) (hs : s ∈ students) :
    (pyLower s.username ∈ get_users_who_posted_today postedResp now →
      s ∉ (process_batch students batch_name today now postedResp updatesResp
            dmRows sheet sendOk).toDm ∧
      s ∉ (process_batch students batch_name today now postedResp updatesResp
            dmRows sheet sendOk).toMention)
    ∧ (pyLower s.username ∉ get_users_who_posted_today postedResp now →
       pyLower s.username ∈ get_dmd_users_for_date dmRows batch_name today →
      s ∈ (process_batch students batch_name today now postedResp updatesResp
            dmRows sheet sendOk).toMention ∧
      s ∉ (process_batch students batch_name today now postedResp updatesResp
            dmRows sheet sendOk).toDm)
    ∧ (pyLower s.username ∉ get_users_who_posted_today postedResp now →
       pyLower s.username ∉ get_dmd_users_for_date dmRows batch_name today →
      s ∈ (process_batch students batch_name today now postedResp updatesResp
            dmRows sheet sendOk).toDm ∧
      s ∉ (process_batch students batch_name today now postedResp updatesResp
            dmRows sheet sendOk).toMention)
    ∧ (process_batch students batch_name today now postedResp updatesResp
         dmRows sheet sendOk).postedCount =
        (students.filter
          (fun t => decide (pyLower t.username ∈
            get_users_who_posted_today postedResp now))).length := by
  refine ⟨?_, ?_, ?_, ?_⟩
  · intro hp
    rw [process_batch_toDm, process_batch_toMention]
    simp [List.mem_filter, hp]
  · intro hp hd
    rw [process_batch_toDm, process_batch_toMention]
    simp [List.mem_filter, hp, hd, hs]
  · intro hp hd
    rw [process_batch_toDm, process_batch_toMention]
    simp [List.mem_filter, hp, hd, hs]
  · simp [process_batch, classifyStudents_eq]

/-- C1 witness: a concrete batch with one member in each bucket. -/
theorem classification_exactly_one_bucket_witness :
    (⟨"amal", "Amal"⟩ : Student) ∈
      [(⟨"amal", "Amal"⟩ : Student), ⟨"bea", "Bea"⟩, ⟨"cruz", "Cruz"⟩] ∧
    (pyLower (⟨"amal", "Amal"⟩ : Student).username ∉
        get_users_who_posted_today ⟨some "success", none, []⟩ ⟨0, 12, 0, 0⟩ →
     pyLower (⟨"amal", "Amal"⟩ : Student).username ∈
        get_dmd_users_for_date [["DATE", "BATCH", "USERNAME"],
          ["2026-10-12", "b1", "AMAL"]] "b1" "2026-10-12" →
     (⟨"amal", "Amal"⟩ : Student) ∈
        (process_batch [⟨"amal", "Amal"⟩, ⟨"bea", "Bea"⟩, ⟨"cruz", "Cruz"⟩]
          "b1" "2026-10-12" ⟨0, 12, 0, 0⟩ ⟨some "success", none, []⟩
          ⟨some "success", none, []⟩
          [["DATE", "BATCH", "USERNAME"], ["2026-10-12", "b1", "AMAL"]]
          [] (fun _ => true)).toMention ∧
     (⟨"amal", "Amal"⟩ : Student) ∉
        (process_batch [⟨"amal", "Amal"⟩, ⟨"bea", "Bea"⟩, ⟨"cruz", "Cruz"⟩]
          "b1" "2026-10-12" ⟨0, 12, 0, 0⟩ ⟨some "success", none, []⟩
          ⟨some "success", none, []⟩
          [["DATE", "BATCH", "USERNAME"], ["2026-10-12", "b1", "AMAL"]]
          [] (fun _ => true)).toDm) := by
  constructor
  · decide
  · exact (classification_exactly_one_bucket
      [⟨"amal", "Amal"⟩, ⟨"bea", "Bea"⟩, ⟨"cruz", "Cruz"⟩]
      "b1" "2026-10-12" ⟨0, 12, 0, 0⟩ ⟨some "success", none, []⟩
      ⟨some "success", none, []⟩
      [["DATE", "BATCH", "USERNAME"], ["2026-10-12", "b1", "AMAL"]]
      [] (fun _ => true) ⟨"amal", "Amal"⟩ (by decide)).2.1

theorem dmLoop_go (sendOk : String → Bool) (batch date : String)
    (toDm : List Student) (as : List String)
    (ls : List (String × String × String)) :
    toDm.foldl
      (fun acc s =>
        if send_dm sendOk s.username then
          (acc.1 ++ [s.username], acc.2 ++ [record_dm_sent batch date s.username])
        else (acc.1 ++ [s.username], acc.2))
      (as, ls) =
      (as ++ toDm.map (fun s => s.username),
       ls ++ (toDm.filter (fun s => sendOk s.username)).map
          (fun s => record_dm_sent batch date s.username)) := by
  induction toDm generalizing as ls with
  | nil => simp
  | cons s rest ih =>
    simp only [send_dm] at ih ⊢
    simp only [List.foldl_cons, List.map_cons, List.filter_cons]
    by_cases h : sendOk s.username
    · simp [h, ih, List.append_assoc]
    · simp [h, ih, List.append_assoc]

theorem dmLoop_eq (sendOk : String → Bool) (batch date : String)
    (toDm : List Student) :
    dmLoop sendOk batch date toDm =
      (toDm.map (fun s => s.username),
       (toDm.filter (fun s => sendOk s.username)).map
          (fun s => record_dm_sent batch date s.username)) := by
  unfold dmLoop
  rw [dmLoop_go]
  simp

/-- C4: when the current hour is not 19, `process_batch` sends no private
reminder at all, whatever the DM bucket holds; when the current hour is 19
it attempts a DM to every member of the DM bucket (the attempts are exactly
the bucket's usernames, in order). -/
theorem dm_send_hour_gate (students : List Student)
    (batch_name today : String) (now : CivilTime)
    (postedResp updatesResp : Response)
    (dmRows : List (List String)) (sheet : List (List String))
    (sendOk : String → Bool) :
    (now.hour ≠ 19 →
      (process_batch students batch_name today now postedResp updatesResp
          dmRows sheet sendOk).dmAttempts = [])
    ∧ (now.hour = 19 →
      (process_batch students batch_name today now postedResp updatesResp
          dmRows sheet sendOk).dmAttempts =
        (process_batch students batch_name today now postedResp updatesResp
            dmRows sheet sendOk).toDm.map (fun s => s.username)
      ∧ ∀ s ∈ (process_batch students batch_name today now postedResp updatesResp
            dmRows sheet sendOk).toDm,
          s.username ∈ (process_batch students batch_name today now postedResp
            updatesResp dmRows sheet sendOk).dmAttempts) := by
  constructor
  · intro h
    simp [process_batch, h]
  · intro h
    constructor
    · simp [process_batch, h, dmLoop_eq]
    · intro s hm
      simp only [process_batch, h, dmLoop_eq, if_pos] at hm ⊢
      exact List.mem_map_of_mem (fun s => s.username) hm

/-- C4 witness: at hour 12 no DM attempt is made for a non-empty pending
bucket; at hour 19 the single pending member is attempted. -/
theorem dm_send_hour_gate_witness :
    ((12 : Nat) ≠ 19 →
      (process_batch [⟨"dana", "Dana"⟩] "b1" "2026-10-12" ⟨0, 12, 0, 0⟩
          ⟨some "success", none, []⟩ ⟨some "success", none, []⟩ [] []
          (fun _ => true)).dmAttempts = []) ∧
    ((19 : Nat) = 19 →
      (process_batch [⟨"dana", "Dana"⟩] "b1" "2026-10-12" ⟨0, 19, 0, 0⟩
          ⟨some "success", none, []⟩ ⟨some "success", none, []⟩ [] []
          (fun _ => true)).dmAttempts =
        (process_batch [⟨"dana", "Dana"⟩] "b1" "2026-10-12" ⟨0, 19, 0, 0⟩
            ⟨some "success", none, []⟩ ⟨some "success", none, []⟩ [] []
            (fun _ => true)).toDm.map (fun s => s.username)
      ∧ ∀ s ∈ (process_batch [⟨"dana", "Dana"⟩] "b1" "2026-10-12" ⟨0, 19, 0, 0⟩
            ⟨some "success", none, []⟩ ⟨some "success", none, []⟩ [] []
            (fun _ => true)).toDm,
          s.username ∈ (process_batch [⟨"dana", "Dana"⟩] "b1" "2026-10-12"
            ⟨0, 19, 0, 0⟩ ⟨some "success", none, []⟩ ⟨some "success", none, []⟩
            [] [] (fun _ => true)).dmAttempts) := by
  constructor
  · intro h
    exact (dm_send_hour_gate [⟨"dana", "Dana"⟩] "b1" "2026-10-12" ⟨0, 12, 0, 0⟩
      ⟨some "success", none, []⟩ ⟨some "success", none, []⟩ [] []
      (fun _ => true)).1 (by decide)
  · intro h
    exact (dm_send_hour_gate [⟨"dana", "Dana"⟩] "b1" "2026-10-12" ⟨0, 19, 0, 0⟩
      ⟨some "success", none, []⟩ ⟨some "success", none, []⟩ [] []
      (fun _ => true)).2 (by decide)

/-- C6: in the DM window, the `dm_state` rows appended by the run are exactly
one `record_dm_sent` row, keyed by (date, group, lowercased username), for
each DM attempt the platform reported successful, in attempt order; failed
attempts append nothing. -/
theorem dm_log_success_only (students : List Student)
    (batch_name today : String) (now : CivilTime)
    (postedResp updatesResp : Response)
    (dmRows : List (List String)) (sheet : List (List String))
    (sendOk : String → Bool) (h : now.hour = 19) :
    (process_batch students batch_name today now postedResp updatesResp
        dmRows sheet sendOk).dmLog =
      ((process_batch students batch_name today now postedResp updatesResp
          dmRows sheet sendOk).toDm.filter (fun s => sendOk s.username)).map
        (fun s => record_dm_sent batch_name today s.username)
    ∧ (process_batch students batch_name today now postedResp updatesResp
        dmRows sheet sendOk).dmLog.length =
      ((process_batch students batch_name today now postedResp updatesResp
          dmRows sheet sendOk).toDm.filter
        (fun s => sendOk s.username)).length := by
  constructor
  · simp [process_batch, h, dmLoop_eq]
  · simp [process_batch, h, dmLoop_eq]

/-- C6 witness: one successful and one failed DM; only the successful one is
logged, keyed by the lowercased username. -/
theorem dm_log_success_only_witness :
    (process_batch [⟨"Ed", "Ed"⟩, ⟨"Fay", "Fay"⟩] "b1" "2026-10-12"
        ⟨0, 19, 0, 0⟩ ⟨some "success", none, []⟩ ⟨some "success", none, []⟩
        [] [] (fun u => u == "Ed")).dmLog =
      ((process_batch [⟨"Ed", "Ed"⟩, ⟨"Fay", "Fay"⟩] "b1" "2026-10-12"
          ⟨0, 19, 0, 0⟩ ⟨some "success", none, []⟩ ⟨some "success", none, []⟩
          [] [] (fun u => u == "Ed")).toDm.filter
        (fun s => (fun u => u == "Ed") s.username)).map
        (fun s => record_dm_sent "b1" "2026-10-12" s.username) := by
  exact (dm_log_success_only [⟨"Ed", "Ed"⟩, ⟨"Fay", "Fay"⟩] "b1" "2026-10-12"
    ⟨0, 19, 0, 0⟩ ⟨some "success", none, []⟩ ⟨some "success", none, []⟩
    [] [] (fun u => u == "Ed") rfl).1

/-- C8: on a non-success API response, both message-fetching operations of
`main.py` return an empty result (`get_users_who_posted_today` an empty
posted-set, `fetch_batch_updates` an empty participant-content mapping);
the embedding is a total function of the single response consumed, so no
retry happens and no exception escapes. -/
theorem fetch_failure_yields_empty (resp : Response) (now : CivilTime)
    (h : resp.result ≠ some "success") :
    get_users_who_posted_today resp now = []
    ∧ fetch_batch_updates resp now = [] := by
  constructor
  · simp [get_users_who_posted_today, h]
  · simp [fetch_batch_updates, h]

/-- C8 witness: an error response carrying messages still yields empty
results from both fetchers. -/
theorem fetch_failure_yields_empty_witness :
    get_users_who_posted_today
      ⟨some "error", some "Invalid API key",
        [⟨7, "g@x.in", "G", 10 ^ 9, "hello"⟩]⟩ ⟨0, 12, 0, 0⟩ = []
    ∧ fetch_batch_updates
      ⟨some "error", some "Invalid API key",
        [⟨7, "g@x.in", "G", 10 ^ 9, "hello"⟩]⟩ ⟨0, 12, 0, 0⟩ = [] := by
  exact fetch_failure_yields_empty
    ⟨some "error", some "Invalid API key", [⟨7, "g@x.in", "G", 10 ^ 9, "hello"⟩]⟩
    ⟨0, 12, 0, 0⟩ (by decide)

/-- C10: with an empty updates mapping, `update_batch_sheet` leaves the
worksheet grid exactly as it was: no date row, no header column, no cell. -/
theorem empty_updates_sheet_unchanged (g : List (List String))
    (todayLbl : String) :
    update_batch_sheet g [] todayLbl = g := by
  simp [update_batch_sheet]

/-- C2: with day-start hour 5, the fetchers' window start is the most recent
05:00:00 at or before now — the previous calendar day's 05:00:00 exactly when
the current hour is before 5 — and both the human label and the ISO date key
are formatted from the previous calendar day exactly when the current hour
is before 5, otherwise from the current calendar day. -/
theorem day_window_boundary (now : CivilTime) (h : now.Valid) :
    (start_of_day now).hour = 5
    ∧ (start_of_day now).minute = 0
    ∧ (start_of_day now).second = 0
    ∧ toSecs (start_of_day now) ≤ toSecs now
    ∧ (∀ d : Int, toSecs ⟨d, 5, 0, 0⟩ ≤ toSecs now →
        toSecs ⟨d, 5, 0, 0⟩ ≤ toSecs (start_of_day now))
    ∧ (today_label now = now.day - 1 ↔ now.hour < 5)
    ∧ (today_date_str now = now.day - 1 ↔ now.hour < 5)
    ∧ (¬ now.hour < 5 →
        today_label now = now.day ∧ today_date_str now = now.day) := by
  obtain ⟨h1, h2, h3⟩ := h
  by_cases h5 : now.hour < 5
  · have hs : start_of_day now = ⟨now.day - 1, 5, 0, 0⟩ := by
      unfold start_of_day
      rw [if_pos h5]
    have hl : today_label now = now.day - 1 := by
      unfold today_label
      rw [if_pos h5]
    have hd2 : today_date_str now = now.day - 1 := by
      unfold today_date_str
      rw [if_pos h5]
    rw [hs, hl, hd2]
    refine ⟨rfl, rfl, rfl, ?_, fun d hd => ?_, ?_, ?_, fun hc => absurd h5 hc⟩
    · unfold toSecs
      push_cast
      omega
    · unfold toSecs at hd ⊢
      push_cast at hd ⊢
      omega
    · exact iff_of_true rfl h5
    · exact iff_of_true rfl h5
  · have hs : start_of_day now = ⟨now.day, 5, 0, 0⟩ := by
      unfold start_of_day
      rw [if_neg h5]
    have hl : today_label now = now.day := by
      unfold today_label
      rw [if_neg h5]
    have hd2 : today_date_str now = now.day := by
      unfold today_date_str
      rw [if_neg h5]
    rw [hs, hl, hd2]
    refine ⟨rfl, rfl, rfl, ?_, fun d hd => ?_, ?_, ?_, fun hc => ⟨rfl, rfl⟩⟩
    · unfold toSecs
      push_cast
      omega
    · unfold toSecs at hd ⊢
      push_cast at hd ⊢
      omega
    · exact iff_of_false (by omega) h5
    · exact iff_of_false (by omega) h5

/-- C2 witness: at 03:30 the window starts at the previous day's 05:00 and
the labels name the previous day. -/
theorem day_window_boundary_witness :
    CivilTime.Valid ⟨1000, 3, 30, 0⟩
    ∧ ((start_of_day ⟨1000, 3, 30, 0⟩).hour = 5
    ∧ (start_of_day ⟨1000, 3, 30, 0⟩).minute = 0
    ∧ (start_of_day ⟨1000, 3, 30, 0⟩).second = 0
    ∧ toSecs (start_of_day ⟨1000, 3, 30, 0⟩) ≤ toSecs ⟨1000, 3, 30, 0⟩
    ∧ (∀ d : Int, toSecs ⟨d, 5, 0, 0⟩ ≤ toSecs ⟨1000, 3, 30, 0⟩ →
        toSecs ⟨d, 5, 0, 0⟩ ≤ toSecs (start_of_day ⟨1000, 3, 30, 0⟩))
    ∧ (today_label ⟨1000, 3, 30, 0⟩ = (1000 : Int) - 1 ↔ (3 : Nat) < 5)
    ∧ (today_date_str ⟨1000, 3, 30, 0⟩ = (1000 : Int) - 1 ↔ (3 : Nat) < 5)
    ∧ (¬ (3 : Nat) < 5 →
        today_label ⟨1000, 3, 30, 0⟩ = (1000 : Int)
        ∧ today_date_str ⟨1000, 3, 30, 0⟩ = (1000 : Int))) :=
  ⟨by decide, day_window_boundary ⟨1000, 3, 30, 0⟩ (by decide)⟩

/-- Python dict lookup `m[k]` on the association-list model: the value of the
first binding for the key (`dictInsert` keeps bindings unique, so this is the
binding). -/
def dictLookup (m : List (String × String)) (k : String) : Option String :=
  match m with
  | [] => none
  | p :: rest => if p.1 = k then some p.2 else dictLookup rest k

theorem dictInsert_cons_ne (p : String × String)
    (rest : List (String × String)) (k v : String) (h : ¬ p.1 = k) :
    dictInsert (p :: rest) k v = p :: dictInsert rest k v := by
  unfold dictInsert
  by_cases ha : rest.any (fun q => q.1 = k)
  · simp [ha, h]
  · simp [ha, h]

theorem dictLookup_map_replace_ne (m : List (String × String)) (k v k' : String)
    (h : ¬ k = k') :
    dictLookup (m.map (fun p => if p.1 = k then (k, v) else p)) k' =
      dictLookup m k' := by
  induction m with
  | nil => rfl
  | cons p rest ih =>
    by_cases hp : p.1 = k
    · simp only [List.map_cons, hp, if_pos]
      unfold dictLookup
      simp [h, hp, ih]
    · simp only [List.map_cons, hp, if_neg, ite_false]
      unfold dictLookup
      by_cases hp' : p.1 = k'
      · simp [hp']
      · simp [hp', ih]

theorem dictLookup_dictInsert_self (m : List (String × String)) (k v : String) :
    dictLookup (dictInsert m k v) k = some v := by
  induction m with
  | nil => simp [dictInsert, dictLookup]
  | cons p rest ih =>
    by_cases hp : p.1 = k
    · have hrw : dictInsert (p :: rest) k v =
          (k, v) :: rest.map (fun q => if q.1 = k then (k, v) else q) := by
        unfold dictInsert
        simp [hp]
      rw [hrw]
      simp [dictLookup]
    · rw [dictInsert_cons_ne p rest k v hp]
      unfold dictLookup
      simp [hp, ih]

theorem dictLookup_dictInsert_ne (m : List (String × String)) (k v k' : String)
    (h : ¬ k = k') :
    dictLookup (dictInsert m k v) k' = dictLookup m k' := by
  induction m with
  | nil =>
    simp [dictInsert, dictLookup, h]
  | cons p rest ih =>
    by_cases hp : p.1 = k
    · have hrw : dictInsert (p :: rest) k v =
          (k, v) :: rest.map (fun q => if q.1 = k then (k, v) else q) := by
        unfold dictInsert
        simp [hp]
      rw [hrw]
      unfold dictLookup
      have hp' : ¬ p.1 = k' := by
        rw [hp]
        exact h
      simp [h, hp', dictLookup_map_replace_ne rest k v k' h]
    · rw [dictInsert_cons_ne p rest k v hp]
      unfold dictLookup
      by_cases hp' : p.1 = k'
      · simp [hp']
      · simp [hp', ih]

theorem fetch_fold_lookup (now : CivilTime) (p : String) (msgs : List Msg)
    (acc : List (String × String)) :
    dictLookup
      (msgs.foldl
        (fun acc m =>
          if startTs now ≤ m.timestamp then
            dictInsert acc m.sender_full_name (strip_html m.content)
          else acc)
        acc) p =
      (match (msgs.filter
          (fun m =>
            decide (m.sender_full_name = p ∧ startTs now ≤ m.timestamp))).getLast? with
      | some m => some (strip_html m.content)
      | none => dictLookup acc p) := by
  induction msgs generalizing acc with
  | nil => simp
  | cons m rest ih =>
    simp only [List.foldl_cons, List.filter_cons]
    by_cases hts : startTs now ≤ m.timestamp
    · by_cases hp : m.sender_full_name = p
      · rw [if_pos hts, ih]
        simp only [hp, hts, and_self, decide_eq_true_eq, if_true, ite_true,
          decide_True]
        cases hfl : rest.filter
            (fun m =>
              decide (m.sender_full_name = p ∧ startTs now ≤ m.timestamp)) with
        | nil =>
          simp [hp, dictLookup_dictInsert_self]
        | cons x xs =>
          rw [List.getLast?_cons_cons,
            List.getLast?_eq_getLast_of_ne_nil (l := x :: xs) (by simp)]
      · rw [if_pos hts, ih]
        have hcond :
            (decide (m.sender_full_name = p ∧ startTs now ≤ m.timestamp)) =
              false := by
          simp [hp]
        rw [hcond]
        simp only [Bool.false_eq_true, if_false, ite_false]
        cases hfl : rest.filter
            (fun m =>
              decide (m.sender_full_name = p ∧ startTs now ≤ m.timestamp)) with
        | nil =>
          simp [dictLookup_dictInsert_ne _ _ _ _ hp]
        | cons x xs =>
          rw [List.getLast?_eq_getLast_of_ne_nil (l := x :: xs) (by simp)]
    · rw [if_neg hts, ih]
      have hcond :
          (decide (m.sender_full_name = p ∧ startTs now ≤ m.timestamp)) =
            false := by
        simp [hts]
      rw [hcond]
      simp only [Bool.false_eq_true, if_false, ite_false]

/-- C3: when the fetched messages are in chronological order (as the chat
API returns them) and a participant's in-window messages are exactly two,
at timestamps T1 < T2, the content recorded for that participant is the
markup-stripped content of the later (T2) message. -/
theorem last_write_wins (resp : Response) (now : CivilTime) (p : String)
    (m1 m2 : Msg) (hok : resp.result = some "success")
    (hsorted : resp.messages.Pairwise (fun a b => a.timestamp ≤ b.timestamp))
    (hfilter :
      resp.messages.filter
          (fun m =>
            decide (m.sender_full_name = p ∧ startTs now ≤ m.timestamp)) =
        [m1, m2] ∨
      resp.messages.filter
          (fun m =>
            decide (m.sender_full_name = p ∧ startTs now ≤ m.timestamp)) =
        [m2, m1])
    (ht : m1.timestamp < m2.timestamp) :
    dictLookup (fetch_batch_updates resp now) p =
      some (strip_html m2.content) := by
  have hfe :
      resp.messages.filter
          (fun m =>
            decide (m.sender_full_name = p ∧ startTs now ≤ m.timestamp)) =
        [m1, m2] := by
    rcases hfilter with hf | hf
    · exact hf
    · exfalso
      have hpf := hsorted.filter
        (fun m => decide (m.sender_full_name = p ∧ startTs now ≤ m.timestamp))
      rw [hf] at hpf
      have hle : m2.timestamp ≤ m1.timestamp := by
        simpa using hpf
      omega
  unfold fetch_batch_updates
  rw [if_neg (by simp [hok])]
  rw [fetch_fold_lookup, hfe]
  rfl

/-- C3 witness: two tagged messages from the same user inside the window;
the recorded content is the stripped content of the later one. -/
theorem last_write_wins_witness :
    dictLookup
      (fetch_batch_updates
        ⟨some "success", none,
          [⟨1, "a@x.in", "Ada", 20000, "<p>first</p>"⟩,
           ⟨2, "a@x.in", "Ada", 30000, "<p>second</p>"⟩]⟩
        ⟨0, 12, 0, 0⟩) "Ada" =
      some (strip_html "<p>second</p>") := by
  exact last_write_wins
    ⟨some "success", none,
      [⟨1, "a@x.in", "Ada", 20000, "<p>first</p>"⟩,
       ⟨2, "a@x.in", "Ada", 30000, "<p>second</p>"⟩]⟩
    ⟨0, 12, 0, 0⟩ "Ada"
    ⟨1, "a@x.in", "Ada", 20000, "<p>first</p>"⟩
    ⟨2, "a@x.in", "Ada", 30000, "<p>second</p>"⟩
    rfl (by decide) (Or.inl (by decide)) (by decide)

theorem mem_joinSpace_infix (t : String) (ts : List String) (h : t ∈ ts) :
    t.data <:+: (joinSpace ts).data := by
  induction ts with
  | nil => simp at h
  | cons a rest ih =>
    cases rest with
    | nil =>
      have ha : t = a := by simpa using h
      subst ha
      exact List.infix_refl _
    | cons b rs =>
      rcases List.mem_cons.mp h with h1 | h2
      · subst h1
        simp only [joinSpace]
        rw [String.data_append, String.data_append, List.append_assoc]
        exact (List.prefix_append _ _).isInfix
      · have hi := ih h2
        have hsuf : (joinSpace (b :: rs)).data <:+:
            (joinSpace (a :: b :: rs)).data := by
          simp only [joinSpace]
          rw [String.data_append]
          exact (List.suffix_append _ _).isInfix
        exact hi.trans hsuf

theorem send_channel_mention_spec (students : List Student)
    (h : ¬ students = []) :
    ∃ msg, send_channel_mention students = [msg]
      ∧ ∀ s ∈ students, (mentionToken s).data <:+: msg.data := by
  refine ⟨joinSpace (students.map mentionToken) ++ " " ++ MENTION_MESSAGE,
    ?_, ?_⟩
  · simp [send_channel_mention, h]
  · intro s hs
    have h1 : (mentionToken s).data <:+:
        (joinSpace (students.map mentionToken)).data :=
      mem_joinSpace_infix _ _ (List.mem_map_of_mem _ hs)
    have h2 : (joinSpace (students.map mentionToken)).data <+:
        (joinSpace (students.map mentionToken) ++ " " ++
          MENTION_MESSAGE).data := by
      rw [String.data_append, String.data_append, List.append_assoc]
      exact List.prefix_append _ _
    exact h1.trans h2.isInfix

/-- C5: with a non-empty escalation bucket, `process_batch` posts exactly one
public channel message, and that message contains the `@**display name**`
mention of every escalated member — but only when the current hour lies in
19–23 inclusive; at any hour outside that window no public mention is
posted. -/
theorem mention_window_gate (students : List Student)
    (batch_name today : String) (now : CivilTime)
    (postedResp updatesResp : Response)
    (dmRows : List (List String)) (sheet : List (List String))
    (sendOk : String → Bool) :
    ((19 ≤ now.hour ∧ now.hour ≤ 23) →
      (process_batch students batch_name today now postedResp updatesResp
          dmRows sheet sendOk).toMention ≠ [] →
      ∃ msg, (process_batch students batch_name today now postedResp
          updatesResp dmRows sheet sendOk).mentionSent = [msg]
        ∧ ∀ s ∈ (process_batch students batch_name today now postedResp
            updatesResp dmRows sheet sendOk).toMention,
            (mentionToken s).data <:+: msg.data)
    ∧ (¬ (19 ≤ now.hour ∧ now.hour ≤ 23) →
      (process_batch students batch_name today now postedResp updatesResp
          dmRows sheet sendOk).mentionSent = []) := by
  constructor
  · intro hw hne
    have hsent : (process_batch students batch_name today now postedResp
        updatesResp dmRows sheet sendOk).mentionSent =
        send_channel_mention (process_batch students batch_name today now
          postedResp updatesResp dmRows sheet sendOk).toMention := by
      simp only [process_batch] at hne ⊢
      simp [hw, hne]
    rw [hsent]
    exact send_channel_mention_spec _ hne
  · intro hw
    simp [process_batch, hw]

/-- C5 witness: at hour 20 a single escalated member produces exactly one
channel message carrying that member's mention token. -/
theorem mention_window_gate_witness :
    ((19 ≤ (20 : Nat) ∧ (20 : Nat) ≤ 23) →
      (process_batch [⟨"gia", "Gia"⟩] "b1" "2026-10-12" ⟨0, 20, 0, 0⟩
          ⟨some "success", none, []⟩ ⟨some "success", none, []⟩
          [["DATE", "BATCH", "USERNAME"], ["2026-10-12", "b1", "gia"]]
          [] (fun _ => true)).toMention ≠ [] →
      ∃ msg, (process_batch [⟨"gia", "Gia"⟩] "b1" "2026-10-12" ⟨0, 20, 0, 0⟩
          ⟨some "success", none, []⟩ ⟨some "success", none, []⟩
          [["DATE", "BATCH", "USERNAME"], ["2026-10-12", "b1", "gia"]]
          [] (fun _ => true)).mentionSent = [msg]
        ∧ ∀ s ∈ (process_batch [⟨"gia", "Gia"⟩] "b1" "2026-10-12"
            ⟨0, 20, 0, 0⟩ ⟨some "success", none, []⟩ ⟨some "success", none, []⟩
            [["DATE", "BATCH", "USERNAME"], ["2026-10-12", "b1", "gia"]]
            [] (fun _ => true)).toMention,
            (mentionToken s).data <:+: msg.data)
    ∧ ((19 ≤ (20 : Nat) ∧ (20 : Nat) ≤ 23)
    ∧ (process_batch [⟨"gia", "Gia"⟩] "b1" "2026-10-12" ⟨0, 20, 0, 0⟩
          ⟨some "success", none, []⟩ ⟨some "success", none, []⟩
          [["DATE", "BATCH", "USERNAME"], ["2026-10-12", "b1", "gia"]]
          [] (fun _ => true)).toMention ≠ []) := by
  refine ⟨?_, by decide, by decide⟩
  exact (mention_window_gate [⟨"gia", "Gia"⟩] "b1" "2026-10-12" ⟨0, 20, 0, 0⟩
    ⟨some "success", none, []⟩ ⟨some "success", none, []⟩
    [["DATE", "BATCH", "USERNAME"], ["2026-10-12", "b1", "gia"]]
    [] (fun _ => true)).1

theorem toNat_ofNat_valid (n : Nat) (h : n.isValidChar) :
    (Char.ofNat n).toNat = n := by
  unfold Char.ofNat
  rw [dif_pos h]
  unfold Char.ofNatAux Char.toNat
  simp [UInt32.toNat, UInt32.ofNatCore]

theorem upperChar_idem (c : Char) : upperChar (upperChar c) = upperChar c := by
  unfold upperChar
  by_cases h : 97 ≤ c.toNat ∧ c.toNat ≤ 122
  · rw [if_pos h]
    have hv : (c.toNat - 32).isValidChar := by
      left
      omega
    rw [toNat_ofNat_valid _ hv]
    rw [if_neg (by omega)]
  · rw [if_neg h, if_neg h]

theorem pyUpper_idem (s : String) : pyUpper (pyUpper s) = pyUpper s := by
  unfold pyUpper
  simp only [List.map_map]
  congr 1
  exact List.map_congr_left (fun c _ => upperChar_idem c)

theorem set_append_singleton (l : List String) (a v : String) :
    (l ++ [a]).set l.length v = l ++ [v] := by
  induction l with
  | nil => rfl
  | cons x xs ih => simp [ih]

theorem rowValues1_updateCell_append (g : List (List String)) (v : String) :
    rowValues1 (updateCell g 1 ((rowValues1 g).length + 1) v) =
      rowValues1 g ++ [v] := by
  cases g with
  | nil => rfl
  | cons r rs =>
    simp only [rowValues1, List.headD_cons]
    unfold updateCell
    have h0 : 1 - (r :: rs).length = 0 := by simp
    rw [h0]
    simp only [List.replicate_zero, List.append_nil, List.getD_cons_zero]
    show List.headD (setCell r (r.length + 1) v :: rs) [] = r ++ [v]
    simp only [List.headD_cons]
    unfold setCell padTo
    have h1 : r.length + 1 - r.length = 1 := by omega
    rw [h1]
    simpa using set_append_singleton r "" v

theorem rowValues1_updateCell_ge_two (g : List (List String)) (r c : Nat)
    (v : String) (hr : 2 ≤ r) :
    rowValues1 (updateCell g r c v) = rowValues1 g := by
  obtain ⟨r', rfl⟩ : ∃ r', r = r' + 2 := ⟨r - 2, by omega⟩
  cases g with
  | nil =>
    unfold updateCell
    simp [rowValues1, List.replicate_succ]
  | cons x xs =>
    unfold updateCell
    simp only [List.cons_append, List.length_cons]
    simp [rowValues1, List.replicate_succ]

theorem headerStep_inv (acc : List (List String) × List String × List String)
    (user : String)
    (hrow : rowValues1 acc.1 = acc.2.1)
    (hup : acc.2.2 = acc.2.1.map pyUpper) :
    rowValues1 (headerStep acc user).1 = (headerStep acc user).2.1
    ∧ (headerStep acc user).2.2 = (headerStep acc user).2.1.map pyUpper
    ∧ (∃ ext, (headerStep acc user).2.1 = acc.2.1 ++ ext)
    ∧ pyUpper user ∈ (headerStep acc user).2.2 := by
  unfold headerStep
  by_cases hmem : pyUpper user ∈ acc.2.2
  · simp only [hmem, if_pos, ite_true]
    exact ⟨hrow, hup, ⟨[], by simp⟩, trivial⟩
  · simp only [hmem, if_neg, ite_false]
    refine ⟨?_, ?_, ⟨[pyUpper user], rfl⟩, ?_⟩
    · have hc := rowValues1_updateCell_append acc.1 (pyUpper user)
      rw [hrow] at hc
      exact hc
    · rw [hup]
      simp [pyUpper_idem]
    · simp

theorem headerFold_inv (users : List String)
    (acc : List (List String) × List String × List String)
    (hrow : rowValues1 acc.1 = acc.2.1)
    (hup : acc.2.2 = acc.2.1.map pyUpper) :
    rowValues1 (users.foldl headerStep acc).1 =
        (users.foldl headerStep acc).2.1
    ∧ (users.foldl headerStep acc).2.2 =
        (users.foldl headerStep acc).2.1.map pyUpper
    ∧ (∃ ext, (users.foldl headerStep acc).2.1 = acc.2.1 ++ ext)
    ∧ (∀ u ∈ users, pyUpper u ∈ (users.foldl headerStep acc).2.2) := by
  induction users generalizing acc with
  | nil => exact ⟨hrow, hup, ⟨[], by simp⟩, by simp⟩
  | cons u rest ih =>
    obtain ⟨h1, h2, ⟨e1, he1⟩, h4⟩ := headerStep_inv acc u hrow hup
    obtain ⟨g1, g2, ⟨e2, he2⟩, g4⟩ := ih (headerStep acc u) h1 h2
    rw [List.foldl_cons]
    refine ⟨g1, g2, ⟨e1 ++ e2, by rw [he2, he1, List.append_assoc]⟩, ?_⟩
    intro x hx
    rcases List.mem_cons.mp hx with hx0 | hx'
    · subst hx0
      rw [g2, he2, List.map_append, h2] at *
      exact List.mem_append_left _ h4
    · exact g4 x hx'

theorem rowValues1_writeCells (updates : List (String × String))
    (g : List (List String)) (rowIdx : Nat) (headerUpper : List String)
    (hr : 2 ≤ rowIdx) :
    rowValues1 (writeCells g rowIdx headerUpper updates) = rowValues1 g := by
  induction updates generalizing g with
  | nil => rfl
  | cons p rest ih =>
    unfold writeCells at ih ⊢
    rw [List.foldl_cons, ih, rowValues1_updateCell_ge_two _ _ _ _ hr]

theorem rowValues1_updateCell_one_one (g : List (List String)) (v : String) :
    rowValues1 (updateCell g 1 1 v) = v :: (rowValues1 g).drop 1 := by
  cases g with
  | nil => rfl
  | cons r rs =>
    unfold updateCell
    have h0 : 1 - (r :: rs).length = 0 := by simp
    rw [h0]
    simp only [List.replicate_zero, List.append_nil, List.getD_cons_zero]
    show List.headD (setCell r 1 v :: rs) [] = v :: (rowValues1 (r :: rs)).drop 1
    cases r with
    | nil => rfl
    | cons x xs =>
      simp only [List.headD_cons]
      unfold setCell padTo
      simp [rowValues1]

theorem rowValues1_insertEmptyCol (g : List (List String)) (hg : g ≠ []) :
    rowValues1 (insertEmptyCol g) = "" :: rowValues1 g := by
  cases g with
  | nil => exact absurd rfl hg
  | cons r rs => rfl

theorem length_updateCell (g : List (List String)) (r c : Nat) (v : String) :
    (updateCell g r c v).length = g.length + (r - g.length) := by
  unfold updateCell
  simp [List.length_set]

theorem updateCell_ne_nil (g : List (List String)) (r c : Nat) (v : String)
    (hr : 1 ≤ r) :
    updateCell g r c v ≠ [] := by
  intro hnil
  have h1 : (updateCell g r c v).length = 0 := by
    rw [hnil]
    rfl
  rw [length_updateCell] at h1
  omega

theorem seedIfEmpty_ne_nil (g : List (List String)) : seedIfEmpty g ≠ [] := by
  unfold seedIfEmpty
  by_cases hg : g = []
  · rw [if_pos hg]
    exact updateCell_ne_nil _ _ _ _ (by omega)
  · rw [if_neg hg]
    exact hg

theorem mem_rowValues1_seedIfEmpty (g : List (List String)) (c : String)
    (hc : c ∈ rowValues1 g) : c ∈ rowValues1 (seedIfEmpty g) := by
  unfold seedIfEmpty
  by_cases hg : g = []
  · subst hg
    simp [rowValues1] at hc
  · rw [if_neg hg]
    exact hc

theorem fixDateHeader_inv (g : List (List String)) (hg : g ≠ []) :
    rowValues1 (fixDateHeader g).1 = (fixDateHeader g).2
    ∧ (∀ c ∈ rowValues1 g, c ∈ (fixDateHeader g).2)
    ∧ (fixDateHeader g).2 ≠ []
    ∧ pyUpper ((fixDateHeader g).2.headD "") = "DATE" := by
  unfold fixDateHeader
  by_cases hfix : rowValues1 g = [] ∨ pyUpper ((rowValues1 g).headD "") ≠ "DATE"
  · rw [if_pos hfix]
    refine ⟨?_, ?_, by simp, by simp; decide⟩
    · rw [rowValues1_updateCell_one_one, rowValues1_insertEmptyCol g hg]
      rfl
    · intro c hc
      exact List.mem_cons_of_mem _ hc
  · rw [if_neg hfix]
    push_neg at hfix
    exact ⟨rfl, fun c hc => hc, hfix.1, hfix.2⟩

theorem dateRowIdx_ge_two (g : List (List String)) (todayLbl : String)
    (hg : g ≠ []) (hhead : (rowValues1 g).headD "" ≠ todayLbl) :
    2 ≤ dateRowIdx g todayLbl := by
  cases g with
  | nil => exact absurd rfl hg
  | cons r rs =>
    unfold dateRowIdx colValues1
    simp only [List.map_cons]
    have hr : (rowValues1 (r :: rs)).headD "" = r.headD "" := rfl
    rw [hr] at hhead
    by_cases hmem : todayLbl ∈ r.headD "" :: rs.map (fun row => row.headD "")
    · rw [if_pos hmem, List.indexOf_cons_ne _ hhead]
      omega
    · rw [if_neg hmem]
      simp

theorem rowValues1_ensureDateRow (g : List (List String)) (todayLbl : String)
    (hidx : 2 ≤ dateRowIdx g todayLbl) :
    rowValues1 (ensureDateRow g todayLbl) = rowValues1 g := by
  unfold ensureDateRow
  by_cases hmem : todayLbl ∈ colValues1 g
  · rw [if_pos hmem]
  · rw [if_neg hmem]
    exact rowValues1_updateCell_ge_two _ _ _ _ hidx

/-- C9: across an invocation of `update_batch_sheet` (with a date label
that does not collide with the `DATE` header cell, as the `"%-d %b"` labels
never do), the header row only grows: every existing header cell is still a
header cell afterwards, and every participant of the updates has a column
whose header equals the participant's uppercased name (up to the
case-insensitive match the source performs). -/
theorem header_columns_monotone (g : List (List String))
    (updates : List (String × String)) (todayLbl : String)
    (hlbl : pyUpper todayLbl ≠ "DATE") :
    (∀ c ∈ rowValues1 g,
      c ∈ rowValues1 (update_batch_sheet g updates todayLbl))
    ∧ ∀ u ∈ updates,
        pyUpper u.1 ∈
          (rowValues1 (update_batch_sheet g updates todayLbl)).map pyUpper := by
  by_cases hupd : updates = []
  · subst hupd
    refine ⟨fun c hc => ?_, by simp⟩
    have hid : update_batch_sheet g [] todayLbl = g := by
      simp [update_batch_sheet]
    rw [hid]
    exact hc
  · unfold update_batch_sheet
    rw [if_neg hupd]
    have hsne : seedIfEmpty g ≠ [] := seedIfEmpty_ne_nil g
    obtain ⟨f_row, f_mem, f_ne, f_head⟩ := fixDateHeader_inv (seedIfEmpty g) hsne
    obtain ⟨h_row3, h_up3, ⟨ext, hext⟩, h_mem3⟩ :=
      headerFold_inv (updates.map Prod.fst)
        ((fixDateHeader (seedIfEmpty g)).1, (fixDateHeader (seedIfEmpty g)).2,
          (fixDateHeader (seedIfEmpty g)).2.map pyUpper)
        f_row rfl
    set folded := (updates.map Prod.fst).foldl headerStep
        ((fixDateHeader (seedIfEmpty g)).1, (fixDateHeader (seedIfEmpty g)).2,
          (fixDateHeader (seedIfEmpty g)).2.map pyUpper) with hfolded
    have hg3ne : folded.1 ≠ [] := by
      intro hnil
      have hrv : rowValues1 folded.1 = [] := by
        rw [hnil]
        rfl
      rw [h_row3, hext] at hrv
      rcases List.append_eq_nil.mp hrv with ⟨h1, h2⟩
      exact f_ne h1
    have hhead : (rowValues1 folded.1).headD "" ≠ todayLbl := by
      rw [h_row3, hext]
      cases hcase : (fixDateHeader (seedIfEmpty g)).2 with
      | nil => exact absurd hcase f_ne
      | cons a tl =>
        simp only [List.cons_append, List.headD_cons]
        intro heq
        rw [hcase] at f_head
        simp only [List.headD_cons] at f_head
        rw [heq] at f_head
        exact hlbl f_head
    have hidx : 2 ≤ dateRowIdx folded.1 todayLbl :=
      dateRowIdx_ge_two _ _ hg3ne hhead
    have hrow_final :
        rowValues1 (writeCells (ensureDateRow folded.1 todayLbl)
          (dateRowIdx folded.1 todayLbl) folded.2.2 updates) =
          rowValues1 folded.1 := by
      rw [rowValues1_writeCells _ _ _ _ hidx,
        rowValues1_ensureDateRow _ _ hidx]
    constructor
    · intro c hc
      rw [hrow_final, h_row3, hext]
      exact List.mem_append_left _
        (f_mem c (mem_rowValues1_seedIfEmpty g c hc))
    · intro u hu
      rw [hrow_final, h_row3, ← h_up3]
      exact h_mem3 u.1 (List.mem_map_of_mem _ hu)

/-- C9 witness: recording an update for a new participant keeps the existing
header columns and adds the uppercased participant column. -/
theorem header_columns_monotone_witness :
    pyUpper "12 Oct" ≠ "DATE"
    ∧ ((∀ c ∈ rowValues1 [["DATE", "ADA"], ["11 Oct", "prior work"]],
      c ∈ rowValues1 (update_batch_sheet
        [["DATE", "ADA"], ["11 Oct", "prior work"]]
        [("Bea", "did things")] "12 Oct"))
    ∧ ∀ u ∈ [("Bea", "did things")],
        pyUpper u.1 ∈
          (rowValues1 (update_batch_sheet
            [["DATE", "ADA"], ["11 Oct", "prior work"]]
            [("Bea", "did things")] "12 Oct")).map pyUpper) :=
  ⟨by decide,
   header_columns_monotone [["DATE", "ADA"], ["11 Oct", "prior work"]]
     [("Bea", "did things")] "12 Oct" (by decide)⟩

/-- Python `min(msg["id"] for msg in messages)` (0 for an empty list, which
the loop never queries). -/
def oldestId : List Msg → Nat
  | [] => 0
  | m :: rest => rest.foldl (fun a b => min a b.id) m.id

/-- The loop state of `fetch_all_zulip_messages` (`backfill.py`): the
pagination anchor (`none` models the initial `"newest"`), the accumulated
messages, and whether the loop has exited. -/
structure FetchState where
  anchor : Option Nat
  acc : List Msg
  done : Bool
  deriving Repr, DecidableEq

/-- One iteration of the `while True` loop of `fetch_all_zulip_messages`,
with the API modelled as a function from the request anchor to a response:
break on a non-success response, break on an empty page, extend the
accumulator, break when the page's oldest id echoes the current anchor,
move the anchor to the oldest id, and break when the page was short. -/
def fetchStep (api : Option Nat → Response) (s : FetchState) : FetchState :=
  if s.done then s
  else if (api s.anchor).result ≠ some "success" then { s with done := true }
  else if (api s.anchor).messages = [] then { s with done := true }
  else if s.anchor = some (oldestId (api s.anchor).messages) then
    { s with acc := s.acc ++ (api s.anchor).messages, done := true }
  else if (api s.anchor).messages.length < 1000 then
    { anchor := some (oldestId (api s.anchor).messages),
      acc := s.acc ++ (api s.anchor).messages, done := true }
  else
    { anchor := some (oldestId (api s.anchor).messages),
      acc := s.acc ++ (api s.anchor).messages, done := false }

/-- The state before the first iteration: anchor `"newest"`, no messages. -/
def fetchStart : FetchState :=
  ⟨none, [], false⟩

/-- Iterating the loop from a given state. -/
def fetchIterFrom (api : Option Nat → Response) (s : FetchState) :
    Nat → FetchState
  | 0 => s
  | n + 1 => fetchStep api (fetchIterFrom api s n)

/-- The pagination loop reaches one of its break statements from this state. -/
def TerminatesFrom (api : Option Nat → Response) (s : FetchState) : Prop :=
  ∃ n, (fetchIterFrom api s n).done = true

/-- The pagination loop of `fetch_all_zulip_messages` reaches a break. -/
def FetchTerminates (api : Option Nat → Response) : Prop :=
  TerminatesFrom api fetchStart

theorem fetchIterFrom_shift (api : Option Nat → Response) (s : FetchState)
    (n : Nat) :
    fetchIterFrom api s (n + 1) = fetchIterFrom api (fetchStep api s) n := by
  induction n with
  | zero => rfl
  | succ n ih =>
    show fetchStep api (fetchIterFrom api s (n + 1)) = _
    rw [ih]
    rfl

theorem termFrom_step (api : Option Nat → Response) (s : FetchState)
    (h : TerminatesFrom api (fetchStep api s)) : TerminatesFrom api s := by
  obtain ⟨n, hn⟩ := h
  exact ⟨n + 1, by rw [fetchIterFrom_shift]; exact hn⟩

theorem foldl_min_id_replicate (k : Nat) (m : Msg) :
    (List.replicate k m).foldl (fun a b => min a b.id) m.id = m.id := by
  induction k with
  | zero => rfl
  | succ k ih =>
    rw [List.replicate_succ, List.foldl_cons]
    simpa using ih

theorem oldestId_replicate_succ (k : Nat) (m : Msg) :
    oldestId (List.replicate (k + 1) m) = m.id := by
  rw [List.replicate_succ]
  unfold oldestId
  exact foldl_min_id_replicate k m

/-- A message with a given id (content immaterial for pagination). -/
def pageMsg (i : Nat) : Msg :=
  ⟨i, "u@x.in", "U", 0, "m"⟩

/-- A successful full page (1000 messages) whose oldest id is `i`. -/
def fullPage (i : Nat) : Response :=
  ⟨some "success", none, List.replicate 1000 (pageMsg i)⟩

/-- An API whose full pages oscillate between oldest ids 7 and 5 forever:
each page makes apparent progress (a fresh anchor, never an echo), so no
break condition ever fires. -/
def oscillApi (a : Option Nat) : Response :=
  if a = some 7 then fullPage 5 else fullPage 7

theorem oldestId_fullPage (i : Nat) : oldestId (fullPage i).messages = i := by
  show oldestId (List.replicate 1000 (pageMsg i)) = i
  rw [show (1000 : Nat) = 999 + 1 from rfl, oldestId_replicate_succ]
  rfl

theorem fullPage_messages_ne_nil (i : Nat) : (fullPage i).messages ≠ [] := by
  intro h
  have hlen : (List.replicate 1000 (pageMsg i)).length = ([] : List Msg).length :=
    congrArg List.length h
  rw [List.length_replicate, List.length_nil] at hlen
  omega

theorem fullPage_length (i : Nat) : (fullPage i).messages.length = 1000 :=
  List.length_replicate 1000 (pageMsg i)

theorem fetchStep_continue (api : Option Nat → Response) (s : FetchState)
    (hd : s.done = false)
    (hsuc : (api s.anchor).result = some "success")
    (hne : ¬ (api s.anchor).messages = [])
    (hecho : ¬ s.anchor = some (oldestId (api s.anchor).messages))
    (hlen : ¬ (api s.anchor).messages.length < 1000) :
    fetchStep api s =
      { anchor := some (oldestId (api s.anchor).messages),
        acc := s.acc ++ (api s.anchor).messages, done := false } := by
  unfold fetchStep
  rw [hd]
  rw [if_neg (by simp)]
  rw [if_neg (by simp [hsuc])]
  rw [if_neg hne]
  rw [if_neg hecho]
  rw [if_neg hlen]

theorem oscill_step (s : FetchState) (hd : s.done = false)
    (ha : s.anchor = none ∨ s.anchor = some 7 ∨ s.anchor = some 5) :
    (fetchStep oscillApi s).done = false
    ∧ ((fetchStep oscillApi s).anchor = some 7
      ∨ (fetchStep oscillApi s).anchor = some 5) := by
  rcases ha with haeq | haeq | haeq
  · have hresp : oscillApi s.anchor = fullPage 7 := by
      rw [haeq]
      rfl
    have hstep := fetchStep_continue oscillApi s hd
      (by rw [hresp]; rfl)
      (by rw [hresp]; exact fullPage_messages_ne_nil 7)
      (by rw [hresp, oldestId_fullPage, haeq]; simp)
      (by rw [hresp, fullPage_length]; omega)
    rw [hstep, hresp, oldestId_fullPage]
    exact ⟨rfl, Or.inl rfl⟩
  · have hresp : oscillApi s.anchor = fullPage 5 := by
      rw [haeq]
      rfl
    have hstep := fetchStep_continue oscillApi s hd
      (by rw [hresp]; rfl)
      (by rw [hresp]; exact fullPage_messages_ne_nil 5)
      (by rw [hresp, oldestId_fullPage, haeq]; simp)
      (by rw [hresp, fullPage_length]; omega)
    rw [hstep, hresp, oldestId_fullPage]
    exact ⟨rfl, Or.inr rfl⟩
  · have hresp : oscillApi s.anchor = fullPage 7 := by
      rw [haeq]
      rfl
    have hstep := fetchStep_continue oscillApi s hd
      (by rw [hresp]; rfl)
      (by rw [hresp]; exact fullPage_messages_ne_nil 7)
      (by rw [hresp, oldestId_fullPage, haeq]; simp)
      (by rw [hresp, fullPage_length]; omega)
    rw [hstep, hresp, oldestId_fullPage]
    exact ⟨rfl, Or.inl rfl⟩

theorem oscill_invariant (n : Nat) :
    (fetchIterFrom oscillApi fetchStart n).done = false
    ∧ ((fetchIterFrom oscillApi fetchStart n).anchor = none
      ∨ (fetchIterFrom oscillApi fetchStart n).anchor = some 7
      ∨ (fetchIterFrom oscillApi fetchStart n).anchor = some 5) := by
  induction n with
  | zero => exact ⟨rfl, Or.inl rfl⟩
  | succ n ih =>
    obtain ⟨hd, ha⟩ := ih
    obtain ⟨hd2, ha2⟩ := oscill_step _ hd ha
    exact ⟨hd2, Or.inr ha2⟩

/-- C7 counterexample: the claim "the fetch terminates for every API
response sequence" is false.  `oscillApi` answers every request with a
successful full page whose oldest id alternates between 7 and 5, so the
pagination loop of `fetch_all_zulip_messages` hits no break condition and
runs forever. -/
theorem pagination_not_total : ¬ FetchTerminates oscillApi := by
  rintro ⟨n, hn⟩
  rw [(oscill_invariant n).1] at hn
  cases hn

theorem fetchStep_progress (api : Option Nat → Response) (s : FetchState)
    (hd : s.done = false) :
    (fetchStep api s).done = true
    ∨ ((fetchStep api s).done = false
      ∧ (fetchStep api s).anchor = some (oldestId (api s.anchor).messages)
      ∧ (api s.anchor).result = some "success"
      ∧ ¬ (api s.anchor).messages = []
      ∧ ¬ s.anchor = some (oldestId (api s.anchor).messages)
      ∧ 1000 ≤ (api s.anchor).messages.length) := by
  by_cases h1 : (api s.anchor).result = some "success"
  · by_cases h2 : (api s.anchor).messages = []
    · left
      unfold fetchStep
      rw [hd, if_neg (by simp), if_neg (by simp [h1]), if_pos h2]
    · by_cases h3 : s.anchor = some (oldestId (api s.anchor).messages)
      · left
        unfold fetchStep
        rw [hd, if_neg (by simp), if_neg (by simp [h1]), if_neg h2, if_pos h3]
      · by_cases h4 : (api s.anchor).messages.length < 1000
        · left
          unfold fetchStep
          rw [hd, if_neg (by simp), if_neg (by simp [h1]), if_neg h2,
            if_neg h3, if_pos h4]
        · right
          rw [fetchStep_continue api s hd h1 h2 h3 h4]
          exact ⟨rfl, rfl, h1, h2, h3, by omega⟩
  · left
    unfold fetchStep
    rw [hd, if_neg (by simp), if_pos (by simp [h1])]

/-- No successful full page reports an oldest id above the queried anchor:
the backward-progress contract of the paginated message API. -/
def BackwardProgress (api : Option Nat → Response) : Prop :=
  ∀ a : Nat, (api (some a)).result = some "success" →
    (api (some a)).messages ≠ [] →
    1000 ≤ (api (some a)).messages.length →
    oldestId (api (some a)).messages ≤ a

theorem termFrom_of_anchor (api : Option Nat → Response)
    (hbp : BackwardProgress api) :
    ∀ a : Nat, ∀ s : FetchState, s.done = false → s.anchor = some a →
      TerminatesFrom api s := by
  intro a
  induction a using Nat.strong_induction_on with
  | _ a ih =>
    intro s hd ha
    apply termFrom_step
    rcases fetchStep_progress api s hd with h1 | ⟨h2, hanc, hsuc, hne, hech, hlen⟩
    · exact ⟨0, h1⟩
    · have hle : oldestId (api s.anchor).messages ≤ a := by
        rw [ha] at hsuc hne hlen ⊢
        exact hbp a hsuc hne hlen
      have hne' : oldestId (api s.anchor).messages ≠ a := by
        intro heq
        rw [heq] at hech
        exact hech ha
      exact ih (oldestId (api s.anchor).messages) (by omega) _ h2 hanc

/-- C7 (amended): the pagination loop of `fetch_all_zulip_messages`
terminates for every API function whose successful full pages never report
an oldest id greater than the queried numeric anchor; in particular an API
that echoes the queried anchor back (oldest id equal to the anchor) is
stopped by the no-progress break.  (As stated over arbitrary response
sequences the claim is false: see the oscillating-page counterexample.) -/
theorem pagination_terminates (api : Option Nat → Response)
    (hbp : BackwardProgress api) : FetchTerminates api := by
  apply termFrom_step
  rcases fetchStep_progress api fetchStart rfl with h1 | ⟨h2, hanc, _⟩
  · exact ⟨0, h1⟩
  · exact termFrom_of_anchor api hbp _ _ h2 hanc

/-- An API that always answers a full page whose oldest id repeats the
queried anchor: the echoing case the no-progress guard exists for. -/
def echoApi : Option Nat → Response
  | none => fullPage 7
  | some k => fullPage k

/-- C7 witness: the echoing API satisfies the backward-progress contract and
the pagination loop terminates on it. -/
theorem pagination_terminates_witness :
    BackwardProgress echoApi ∧ FetchTerminates echoApi := by
  have hbp : BackwardProgress echoApi := by
    intro a _ _ _
    have h : oldestId (echoApi (some a)).messages = a := oldestId_fullPage a
    omega
  exact ⟨hbp, pagination_terminates echoApi hbp⟩
